import Mathlib

/-!
Verification development for the sqlite-backed COSI state store
(cosi-project/state-sqlite).  The definitions below are a shallow
embedding of the Go source under `pkg/state/impl/sqlite` (and the
unnamed source parts): machine integers become `Nat`/`Int`, byte
slices become `List Nat`, SQL tables become lists of row structures,
and fallible code returns `Except`/`Option` or an explicit
`Option Err × State` pair (an error result returns the pre-transaction
state, modelling the rollback).
-/

/-- Decidable equality for `Except`, so that concrete runs of the models
can be checked by `decide`. -/
instance {ε α : Type} [DecidableEq ε] [DecidableEq α] : DecidableEq (Except ε α) := fun x y =>
  match x, y with
  | .error a, .error b =>
    if h : a = b then .isTrue (congrArg Except.error h)
    else .isFalse (fun hc => h (Except.error.inj hc))
  | .error _, .ok _ => .isFalse (fun hc => Except.noConfusion hc)
  | .ok _, .error _ => .isFalse (fun hc => Except.noConfusion hc)
  | .ok a, .ok b =>
    if h : a = b then .isTrue (congrArg Except.ok h)
    else .isFalse (fun hc => h (Except.ok.inj hc))

namespace StateSqlite

/-! ## Bookmark wire format (watch.go, `encodeBookmark` / `decodeBookmark`)

Go: `binary.BigEndian.AppendUint64(nil, uint64(revision))` and
`int64(binary.BigEndian.Uint64(bookmark))` with a length-8 check.
Bytes are modelled as `List Nat` (each element < 256 by construction);
int64 values are modelled as `Int` with explicit wrapping mod 2^64. -/

/-- Big-endian byte string of `n` in `k` bytes (most significant first). -/
def toBytesBE : Nat → Nat → List Nat
  | 0, _ => []
  | k + 1, n => toBytesBE k (n / 256) ++ [n % 256]

/-- Recombine a big-endian byte string into a natural number. -/
def fromBytesBE (l : List Nat) : Nat :=
  l.foldl (fun acc b => acc * 256 + b) 0

/-- Watch errors surfaced by the sqlite state (errors.go kinds used in watch.go). -/
inductive WErr where
  | unsupported (feature : String)
  | invalidBookmark (reason : String)
  | internal (msg : String)
  deriving DecidableEq, Repr

/-- `encodeBookmark` (watch.go:24-26): the 8-byte big-endian encoding of
`uint64(revision)`, where `revision` is an int64 (wrap mod 2^64). -/
def encodeBookmark (revision : Int) : List Nat :=
  toBytesBE 8 (revision % (2 ^ 64 : Int)).toNat

/-- `decodeBookmark` (watch.go:28-34): length-8 check, then big-endian
uint64 reinterpreted as int64. -/
def decodeBookmark (bookmark : List Nat) : Except WErr Int :=
  if bookmark.length ≠ 8 then
    .error (.invalidBookmark "invalid bookmark length")
  else if fromBytesBE bookmark < 2 ^ 63 then
    .ok (fromBytesBE bookmark)
  else
    .ok ((fromBytesBE bookmark : Int) - 2 ^ 64)

theorem length_toBytesBE (k n : Nat) : (toBytesBE k n).length = k := by
  induction k generalizing n with
  | zero => rfl
  | succ k ih => simp [toBytesBE, ih]

theorem fromBytesBE_append (l : List Nat) (b : Nat) :
    fromBytesBE (l ++ [b]) = fromBytesBE l * 256 + b := by
  simp [fromBytesBE, List.foldl_append]

theorem fromBytesBE_toBytesBE (k n : Nat) (h : n < 256 ^ k) :
    fromBytesBE (toBytesBE k n) = n := by
  induction k generalizing n with
  | zero =>
    simp [toBytesBE, fromBytesBE]
    omega
  | succ k ih =>
    have hdiv : n / 256 < 256 ^ k := by
      rw [Nat.div_lt_iff_lt_mul (by norm_num)]
      calc n < 256 ^ (k + 1) := h
        _ = 256 ^ k * 256 := by ring
    rw [toBytesBE, fromBytesBE_append, ih _ hdiv]
    omega

/-- C7: `encodeBookmark` always yields exactly 8 bytes; decoding inverts
encoding on every int64 event id; `decodeBookmark` fails with the
invalid-bookmark error exactly on inputs whose length is not 8. -/
theorem bookmark_roundtrip (e : Int) (b : List Nat)
    (he : -(2 ^ 63) ≤ e ∧ e < 2 ^ 63) :
    (encodeBookmark e).length = 8 ∧
      decodeBookmark (encodeBookmark e) = .ok e ∧
      ((∃ r, decodeBookmark b = .error (.invalidBookmark r)) ↔ b.length ≠ 8) := by
  obtain ⟨he1, he2⟩ := he
  have hm0 : (0 : Int) ≤ e % (2 ^ 64 : Int) := Int.emod_nonneg e (by norm_num)
  have hm1 : e % (2 ^ 64 : Int) < 2 ^ 64 := Int.emod_lt_of_pos e (by norm_num)
  have hlen : (encodeBookmark e).length = 8 := length_toBytesBE 8 _
  refine ⟨hlen, ?_, ?_⟩
  · have hlt : (e % (2 ^ 64 : Int)).toNat < 256 ^ 8 := by
      norm_num at hm1 ⊢
      omega
    have hfb : fromBytesBE (encodeBookmark e) = (e % (2 ^ 64 : Int)).toNat :=
      fromBytesBE_toBytesBE 8 _ hlt
    unfold decodeBookmark
    rw [if_neg (by simp [hlen]), hfb]
    split_ifs with h
    all_goals
      simp only [Except.ok.injEq]
      norm_num at h he1 he2 hm0 hm1 ⊢
      omega
  · constructor
    · rintro ⟨r, hr⟩ h8
      unfold decodeBookmark at hr
      rw [if_neg (by simp [h8])] at hr
      split_ifs at hr
    · intro h8
      exact ⟨"invalid bookmark length", by unfold decodeBookmark; rw [if_pos h8]⟩

/-- Closed witness for `bookmark_roundtrip` at event id 5 and a 3-byte input. -/
theorem bookmark_roundtrip_witness :
    (encodeBookmark 5).length = 8 ∧
      decodeBookmark (encodeBookmark 5) = .ok 5 ∧
      ((∃ r, decodeBookmark [1, 2, 3] = .error (.invalidBookmark r)) ↔
        ([1, 2, 3] : List Nat).length ≠ 8) :=
  bookmark_roundtrip 5 [1, 2, 3] (by norm_num)

/-! ## Compaction (compact.go / unnamed part_004, `Compact`)

The events table is modelled as a `List CEvent` (one entry per row; only
the `event_id` and `event_timestamp` columns matter to compaction).
Event ids and timestamps are SQLite INTEGER rowids / unixepoch seconds;
they are non-negative in every reachable database, so they are modelled
as `Nat` (theorems carry `1 ≤ id` / `1 ≤ ts` hypotheses where the
reachable-state assumption matters).  `cutoffTime` stands for the
precomputed `time.Now().Add(-CompactMinAge).Unix()`. -/

/-- One row of the events table, restricted to the columns compaction reads. -/
structure CEvent where
  id : Nat
  ts : Nat
  deriving DecidableEq, Repr

/-- `SELECT coalesce(max(event_id), 0) FROM events`. -/
def maxEventId (l : List CEvent) : Nat :=
  l.foldr (fun e m => max e.id m) 0

/-- `SELECT coalesce(min(event_id), 0) FROM events` (0 only when empty;
event ids in reachable databases are ≥ 1). -/
def minEventId : List CEvent → Nat
  | [] => 0
  | e :: rest => rest.foldr (fun x m => min x.id m) e.id

/-- One fold step of the aggregate `max(event_id)` row lookup: keep the
candidate with the larger id among rows with `event_id < mid`. -/
def probeStep (mid : Nat) (e : CEvent) : Option CEvent → Option CEvent
  | none => if e.id < mid then some e else none
  | some a =>
    if e.id < mid then
      if a.id < e.id then some e else some a
    else some a

/-- `SELECT max(event_id), event_timestamp FROM events WHERE event_id < mid`:
the row with the greatest id strictly below `mid`, if any. -/
def probeRow (l : List CEvent) (mid : Nat) : Option CEvent :=
  l.foldr (probeStep mid) none

/-- The timestamp read by the probe;  0 when the aggregate row is NULL
(mirrors `stmt.GetInt64` on NULL). -/
def probeTs (l : List CEvent) (mid : Nat) : Nat :=
  ((probeRow l mid).map (fun e => e.ts)).getD 0

/-- The binary-search loop of `Compact` (part_004 lines 87-127) over
`[left, right)`.  Returns the final `left` together with the value of the
`eventTimestamp` variable after the loop (0 if no probe ever ran); errors
mirror the `failed to find event timestamp` path.  Every iteration of the
`while left < right` loop strictly decreases `right - left`, so the loop
runs at most `right - left` times; `fuel` is that structural bound
(`Compact` passes the initial `right - left`, which makes this recursion
exactly the source loop). -/
def binSearchLoop (l : List CEvent) (minId cutoffTime : Nat) :
    Nat → Nat → Nat → Nat → Except String (Nat × Nat)
  | 0, left, _, lastTs => .ok (left, lastTs)
  | fuel + 1, left, right, lastTs =>
    if left < right then
      if (left + right) / 2 = minId then
        .ok (left, lastTs)
      else if probeTs l ((left + right) / 2) = 0 then
        .error "failed to find event timestamp"
      else if probeTs l ((left + right) / 2) < cutoffTime then
        binSearchLoop l minId cutoffTime fuel ((left + right) / 2 + 1) right
          (probeTs l ((left + right) / 2))
      else
        binSearchLoop l minId cutoffTime fuel left ((left + right) / 2)
          (probeTs l ((left + right) / 2))
    else
      .ok (left, lastTs)

theorem binSearchLoop_succ (l : List CEvent) (minId cutoffTime fuel left right lastTs : Nat) :
    binSearchLoop l minId cutoffTime (fuel + 1) left right lastTs =
      (if left < right then
        if (left + right) / 2 = minId then Except.ok (left, lastTs)
        else if probeTs l ((left + right) / 2) = 0 then
          Except.error "failed to find event timestamp"
        else if probeTs l ((left + right) / 2) < cutoffTime then
          binSearchLoop l minId cutoffTime fuel ((left + right) / 2 + 1) right
            (probeTs l ((left + right) / 2))
        else
          binSearchLoop l minId cutoffTime fuel left ((left + right) / 2)
            (probeTs l ((left + right) / 2))
      else Except.ok (left, lastTs)) := rfl

/-- `CompactionInfo` (part_004 lines 20-23). -/
structure CompactionInfo where
  eventsCompacted : Nat
  remainingEvents : Nat
  deriving DecidableEq, Repr

/-- `Compact` (part_004 lines 26-166).  Returns the compaction report and
the surviving rows of the events table.  The batched DELETE loop (batches
of 1000 until a batch deletes 0 rows) is modelled by its net effect:
every row with `event_id < cutoff` is deleted and `EventsCompacted`
accumulates the total number of deleted rows. -/
def Compact (keepEvents cutoffTime : Nat) (l : List CEvent) :
    Except String (CompactionInfo × List CEvent) :=
  let minId := minEventId l
  let maxId := maxEventId l
  if minId = 0 ∧ maxId = 0 then
    .ok (⟨0, 0⟩, l)
  else
    let remaining := maxId - minId + 1
    if remaining ≤ keepEvents then
      .ok (⟨0, remaining⟩, l)
    else
      let cutoffById := maxId - keepEvents + 1
      match binSearchLoop l minId cutoffTime (cutoffById - minId) minId cutoffById 0 with
      | .error e => .error e
      | .ok (left, lastTs) =>
        if lastTs > cutoffTime then
          .ok (⟨0, remaining⟩, l)
        else
          let deleted := (l.filter (fun e => e.id < left)).length
          .ok (⟨deleted, remaining - deleted⟩, l.filter (fun e => ¬ e.id < left))

theorem le_maxEventId (l : List CEvent) : ∀ e ∈ l, e.id ≤ maxEventId l := by
  induction l with
  | nil => simp
  | cons x rest ih =>
    intro e he
    rcases List.mem_cons.mp he with h | h
    · subst h
      simp [maxEventId]
    · have := ih e h
      simp only [maxEventId, List.foldr_cons] at *
      omega

theorem foldrMin_le_init (rest : List CEvent) (init : Nat) :
    rest.foldr (fun x m => min x.id m) init ≤ init := by
  induction rest with
  | nil => simp
  | cons x r ih => simp only [List.foldr_cons]; omega

theorem foldrMin_le_mem (rest : List CEvent) (init : Nat) :
    ∀ e ∈ rest, rest.foldr (fun x m => min x.id m) init ≤ e.id := by
  induction rest with
  | nil => simp
  | cons x r ih =>
    intro e he
    rcases List.mem_cons.mp he with h | h
    · subst h
      simp only [List.foldr_cons]
      omega
    · have := ih e h
      simp only [List.foldr_cons]
      omega

theorem foldrMin_cases (rest : List CEvent) (init : Nat) :
    rest.foldr (fun x m => min x.id m) init = init ∨
      ∃ e ∈ rest, rest.foldr (fun x m => min x.id m) init = e.id := by
  induction rest with
  | nil => left; rfl
  | cons x r ih =>
    simp only [List.foldr_cons]
    rcases ih with h | ⟨e, he, h⟩
    · rw [h]
      rcases Nat.le_total x.id init with h2 | h2
      · right
        exact ⟨x, List.mem_cons_self _ _, Nat.min_eq_left h2⟩
      · left
        exact Nat.min_eq_right h2
    · rw [h]
      rcases Nat.le_total x.id e.id with h2 | h2
      · right
        exact ⟨x, List.mem_cons_self _ _, Nat.min_eq_left h2⟩
      · right
        exact ⟨e, List.mem_cons_of_mem _ he, Nat.min_eq_right h2⟩

theorem minEventId_le (l : List CEvent) : ∀ e ∈ l, minEventId l ≤ e.id := by
  cases l with
  | nil => simp
  | cons x rest =>
    intro e he
    rcases List.mem_cons.mp he with h | h
    · subst h
      exact foldrMin_le_init rest _
    · exact foldrMin_le_mem rest _ e h

theorem minEventId_mem (l : List CEvent) (h : l ≠ []) :
    ∃ e ∈ l, minEventId l = e.id := by
  cases l with
  | nil => exact absurd rfl h
  | cons x rest =>
    rcases foldrMin_cases rest x.id with h2 | ⟨e, he, h2⟩
    · exact ⟨x, List.mem_cons_self _ _, h2⟩
    · exact ⟨e, List.mem_cons_of_mem _ he, h2⟩

theorem probeRow_cons (x : CEvent) (rest : List CEvent) (mid : Nat) :
    probeRow (x :: rest) mid = probeStep mid x (probeRow rest mid) := rfl

theorem probeRow_mem (l : List CEvent) (mid : Nat) :
    ∀ p, probeRow l mid = some p → p ∈ l ∧ p.id < mid := by
  induction l with
  | nil => intro p h; cases h
  | cons x rest ih =>
    intro p h
    rw [probeRow_cons] at h
    rcases hrest : probeRow rest mid with _ | a <;> rw [hrest] at h <;>
      simp only [probeStep] at h
    · split_ifs at h with hx
      cases h
      exact ⟨List.mem_cons_self _ _, hx⟩
    · have ha := ih a hrest
      split_ifs at h with hx hax
      · cases h
        exact ⟨List.mem_cons_self _ _, hx⟩
      · cases h
        exact ⟨List.mem_cons_of_mem _ ha.1, ha.2⟩
      · cases h
        exact ⟨List.mem_cons_of_mem _ ha.1, ha.2⟩

theorem probeRow_isSome (l : List CEvent) (mid : Nat) (e : CEvent)
    (he : e ∈ l) (hlt : e.id < mid) : ∃ p, probeRow l mid = some p := by
  induction l with
  | nil => cases he
  | cons x rest ih =>
    rw [probeRow_cons]
    rcases List.mem_cons.mp he with h | h
    · subst h
      rcases hrest : probeRow rest mid with _ | a <;> simp only [probeStep]
      · rw [if_pos hlt]
        exact ⟨e, rfl⟩
      · rw [if_pos hlt]
        split_ifs
        · exact ⟨e, rfl⟩
        · exact ⟨a, rfl⟩
    · obtain ⟨p, hp⟩ := ih h
      rw [hp]
      simp only [probeStep]
      split_ifs
      · exact ⟨x, rfl⟩
      · exact ⟨p, rfl⟩
      · exact ⟨p, rfl⟩

/-- Invariant of the binary-search loop: a successful loop run starting
from `right = R` ends at `left` equal to `minId` (the early break), equal
to `R` (every probe was old), or at a point whose probe is at least the
age cutoff. -/
theorem binSearchLoop_final (l : List CEvent) (minId cutoff R : Nat) :
    ∀ fuel left right lastTs lf ts',
      right - left ≤ fuel →
      minId ≤ left → left ≤ right →
      (right = R ∨ cutoff ≤ probeTs l right) →
      binSearchLoop l minId cutoff fuel left right lastTs = .ok (lf, ts') →
      lf = minId ∨ lf = R ∨ cutoff ≤ probeTs l lf := by
  intro fuel
  induction fuel with
  | zero =>
    intro left right lastTs lf ts' hfu h1 h2 hinv heq
    injection heq with h
    obtain ⟨hl, -⟩ := Prod.mk.inj h
    subst hl
    have : left = right := by omega
    subst this
    rcases hinv with h | h
    · right; left; exact h
    · right; right; exact h
  | succ fuel ih =>
    intro left right lastTs lf ts' hfu h1 h2 hinv heq
    have hred : binSearchLoop l minId cutoff (fuel + 1) left right lastTs =
        (if left < right then
          if (left + right) / 2 = minId then Except.ok (left, lastTs)
          else if probeTs l ((left + right) / 2) = 0 then
            Except.error "failed to find event timestamp"
          else if probeTs l ((left + right) / 2) < cutoff then
            binSearchLoop l minId cutoff fuel ((left + right) / 2 + 1) right
              (probeTs l ((left + right) / 2))
          else
            binSearchLoop l minId cutoff fuel left ((left + right) / 2)
              (probeTs l ((left + right) / 2))
        else Except.ok (left, lastTs)) := rfl
    rw [hred] at heq
    split_ifs at heq
    · -- mid = minId: break with left
      injection heq with h
      obtain ⟨hl, -⟩ := Prod.mk.inj h
      subst hl
      left
      omega
    · -- probe old: move left
      exact ih ((left + right) / 2 + 1) right _ lf ts' (by omega) (by omega) (by omega)
        hinv heq
    · -- probe new: move right
      exact ih left ((left + right) / 2) _ lf ts' (by omega) h1 (by omega)
        (Or.inr (by omega)) heq
    · -- loop exit
      injection heq with h
      obtain ⟨hl, -⟩ := Prod.mk.inj h
      subst hl
      have : left = right := by omega
      subst this
      rcases hinv with h | h
      · right; left; exact h
      · right; right; exact h

/-- C4 (amended): after a Compact pass that actually deleted at least one
event (`EventsCompacted > 0`), every remaining event has its id within
the last `CompactKeepEvents` ids of the pre-compaction `max(event_id)`,
or its timestamp at least the age cutoff (`now - CompactMinAge`); the
hypothesis `hmono` is the reachable-database fact that event timestamps
are monotone in event id. -/
theorem compact_preserves_recency (keep cutoff : Nat) (l l' : List CEvent)
    (info : CompactionInfo)
    (hmono : ∀ a ∈ l, ∀ b ∈ l, a.id ≤ b.id → a.ts ≤ b.ts)
    (hok : Compact keep cutoff l = .ok (info, l'))
    (hdel : 0 < info.eventsCompacted) :
    ∀ e ∈ l', maxEventId l - keep < e.id ∨ cutoff ≤ e.ts := by
  intro e he
  unfold Compact at hok
  dsimp only at hok
  split_ifs at hok with hempty hkeep
  · injection hok with h
    obtain ⟨hi, -⟩ := Prod.mk.inj h
    rw [← hi] at hdel
    exact absurd hdel (by simp)
  · injection hok with h
    obtain ⟨hi, -⟩ := Prod.mk.inj h
    rw [← hi] at hdel
    exact absurd hdel (by simp)
  · have hne : l ≠ [] := by
      intro hnil
      subst hnil
      exact hempty ⟨rfl, rfl⟩
    obtain ⟨em, hem, hemid⟩ := minEventId_mem l hne
    have hminmax : minEventId l ≤ maxEventId l := by
      rw [hemid]
      exact le_maxEventId l em hem
    rcases hbs : binSearchLoop l (minEventId l) cutoff
        (maxEventId l - keep + 1 - minEventId l) (minEventId l)
        (maxEventId l - keep + 1) 0 with err | ⟨lf, lastTs⟩
    · rw [hbs] at hok
      cases hok
    · rw [hbs] at hok
      dsimp only at hok
      split_ifs at hok with hlast
      · injection hok with h
        obtain ⟨hi, -⟩ := Prod.mk.inj h
        rw [← hi] at hdel
        exact absurd hdel (by simp)
      · injection hok with h
        obtain ⟨hi, hl'⟩ := Prod.mk.inj h
        subst hl'
        rw [← hi] at hdel
        simp only [CompactionInfo.mk.injEq] at hdel
        obtain ⟨heid, hpred⟩ := List.mem_filter.mp he
        have hef : lf ≤ e.id := by
          simp only [decide_eq_true_eq] at hpred
          omega
        have hfin := binSearchLoop_final l (minEventId l) cutoff
          (maxEventId l - keep + 1) (maxEventId l - keep + 1 - minEventId l)
          (minEventId l) (maxEventId l - keep + 1) 0 lf lastTs
          (Nat.le_refl _) (Nat.le_refl _) (by omega) (Or.inl rfl) hbs
        rcases hfin with h | h | h
        · exfalso
          subst h
          have hlen : l.filter (fun x => x.id < minEventId l) ≠ [] := by
            intro hfe
            rw [hfe] at hdel
            exact absurd hdel (by simp)
          obtain ⟨x, hx⟩ := List.exists_mem_of_ne_nil _ hlen
          obtain ⟨hxl, hxlt⟩ := List.mem_filter.mp hx
          have := minEventId_le l x hxl
          simp only [decide_eq_true_eq] at hxlt
          omega
        · left
          omega
        · rcases hp : probeRow l lf with _ | p
          · right
            have h0 : probeTs l lf = 0 := by rw [probeTs, hp]; rfl
            omega
          · right
            have hpm := probeRow_mem l lf p hp
            have hts := hmono p hpm.1 e heid (by omega)
            have h0 : probeTs l lf = p.ts := by rw [probeTs, hp]; rfl
            omega

/-- C4 counterexample to the claim as stated: with `CompactKeepEvents = 1`,
age cutoff 10 and two events (ids 1, 2) both strictly older than the
cutoff (N = keep + 1), `Compact` deletes nothing and the surviving event
with id 1 is neither within the last `keep` ids of `max(event_id) = 2`
nor younger than the cutoff. -/
theorem compact_recency_counterexample :
    (∀ a ∈ ([⟨1, 5⟩, ⟨2, 5⟩] : List CEvent), ∀ b ∈ ([⟨1, 5⟩, ⟨2, 5⟩] : List CEvent),
        a.id ≤ b.id → a.ts ≤ b.ts) ∧
    Compact 1 10 [⟨1, 5⟩, ⟨2, 5⟩] = .ok (⟨0, 2⟩, [⟨1, 5⟩, ⟨2, 5⟩]) ∧
    ¬ (∀ e ∈ ([⟨1, 5⟩, ⟨2, 5⟩] : List CEvent),
        maxEventId [⟨1, 5⟩, ⟨2, 5⟩] - 1 < e.id ∨ 10 ≤ e.ts) := by
  decide

/-- Closed witness for `compact_preserves_recency`: keep = 1, cutoff = 2,
events 1..3 all old; Compact deletes events 1 and 2 and the survivor
satisfies the recency disjunction. -/
theorem compact_preserves_recency_witness :
    maxEventId [⟨1, 1⟩, ⟨2, 1⟩, ⟨3, 1⟩] - 1 < 3 ∨ (2 : Nat) ≤ 1 :=
  compact_preserves_recency 1 2 [⟨1, 1⟩, ⟨2, 1⟩, ⟨3, 1⟩] [⟨3, 1⟩] ⟨2, 1⟩
    (by decide) (by decide) (by decide) ⟨3, 1⟩ (by decide)

theorem maxEventId_mem (l : List CEvent) (h : l ≠ []) :
    ∃ e ∈ l, maxEventId l = e.id := by
  induction l with
  | nil => exact absurd rfl h
  | cons x rest ih =>
    cases rest with
    | nil =>
      refine ⟨x, List.mem_cons_self _ _, ?_⟩
      simp [maxEventId]
    | cons y r =>
      obtain ⟨e, he, hid⟩ := ih (by simp)
      have hstep : maxEventId (x :: y :: r) = max x.id (maxEventId (y :: r)) := rfl
      rcases Nat.le_total x.id (maxEventId (y :: r)) with h2 | h2
      · refine ⟨e, List.mem_cons_of_mem _ he, ?_⟩
        rw [hstep, Nat.max_eq_right h2, hid]
      · refine ⟨x, List.mem_cons_self _ _, ?_⟩
        rw [hstep, Nat.max_eq_left h2]

/-- The binary-search loop on an event log all of whose timestamps are
strictly older than the cutoff converges to `right`, reporting an old
probe timestamp (or the incoming `lastTs` if it never probed). -/
theorem binSearchLoop_allOld (l : List CEvent) (minId cutoff : Nat)
    (hold : ∀ e ∈ l, e.ts < cutoff ∧ 1 ≤ e.ts)
    (hminmem : ∃ e ∈ l, e.id = minId) :
    ∀ fuel left right lastTs,
      right - left ≤ fuel →
      minId ≤ left → left ≤ right →
      (left = minId → minId + 2 ≤ right) →
      ∃ ts', binSearchLoop l minId cutoff fuel left right lastTs = .ok (right, ts') ∧
        (ts' = lastTs ∨ (ts' < cutoff ∧ 1 ≤ ts')) := by
  intro fuel
  induction fuel with
  | zero =>
    intro left right lastTs hfu h1 h2 h3
    have : left = right := by omega
    subst this
    exact ⟨lastTs, rfl, Or.inl rfl⟩
  | succ fuel ih =>
    intro left right lastTs hfu h1 h2 h3
    by_cases hlr : left < right
    · have hmid : (left + right) / 2 ≠ minId := by
        by_cases hl : left = minId
        · have := h3 hl
          omega
        · omega
      obtain ⟨em, hem, hemid⟩ := hminmem
      obtain ⟨p, hp⟩ := probeRow_isSome l ((left + right) / 2) em hem (by omega)
      have hpm := probeRow_mem l ((left + right) / 2) p hp
      have hpold := hold p hpm.1
      have hpts : probeTs l ((left + right) / 2) = p.ts := by rw [probeTs, hp]; rfl
      rw [binSearchLoop_succ, if_pos hlr, if_neg hmid, hpts, if_neg (by omega),
        if_pos (by omega)]
      obtain ⟨ts', heq, hts'⟩ := ih ((left + right) / 2 + 1) right p.ts
        (by omega) (by omega) (by omega) (by omega)
      refine ⟨ts', heq, Or.inr ?_⟩
      rcases hts' with h | h
      · subst h
        exact ⟨hpold.1, hpold.2⟩
      · exact h
    · have : left = right := by omega
      subst this
      refine ⟨lastTs, ?_, Or.inl rfl⟩
      rw [binSearchLoop_succ, if_neg (by omega)]

/-- A gap-free event log: ids `m, m+1, …, m+n-1` with timestamps given by
`f` at each id. -/
def denseLog (m n : Nat) (f : Nat → Nat) : List CEvent :=
  (List.range n).map (fun i => ⟨m + i, f (m + i)⟩)

theorem mem_denseLog (m n : Nat) (f : Nat → Nat) (e : CEvent) :
    e ∈ denseLog m n f ↔ ∃ i, i < n ∧ e = ⟨m + i, f (m + i)⟩ := by
  simp only [denseLog, List.mem_map, List.mem_range]
  constructor
  · rintro ⟨i, hi, rfl⟩
    exact ⟨i, hi, rfl⟩
  · rintro ⟨i, hi, rfl⟩
    exact ⟨i, hi, rfl⟩

theorem denseLog_succ (m n : Nat) (f : Nat → Nat) :
    denseLog m (n + 1) f = denseLog m n f ++ [⟨m + n, f (m + n)⟩] := by
  simp [denseLog, List.range_succ]

theorem minEventId_denseLog (m n : Nat) (f : Nat → Nat) (hn : 1 ≤ n) :
    minEventId (denseLog m n f) = m := by
  have hne : denseLog m n f ≠ [] := by
    intro h
    have : (denseLog m n f).length = n := by simp [denseLog]
    rw [h] at this
    simp at this
    omega
  obtain ⟨e, he, hid⟩ := minEventId_mem _ hne
  obtain ⟨i, -, rfl⟩ := (mem_denseLog m n f e).mp he
  have hm0 : (⟨m, f m⟩ : CEvent) ∈ denseLog m n f := by
    rw [mem_denseLog]
    exact ⟨0, by omega, by simp⟩
  have h1 : minEventId (denseLog m n f) ≤ m := minEventId_le _ _ hm0
  have h2 : minEventId (denseLog m n f) = m + i := hid
  omega

theorem maxEventId_denseLog (m n : Nat) (f : Nat → Nat) (hn : 1 ≤ n) :
    maxEventId (denseLog m n f) = m + n - 1 := by
  have hne : denseLog m n f ≠ [] := by
    intro h
    have : (denseLog m n f).length = n := by simp [denseLog]
    rw [h] at this
    simp at this
    omega
  obtain ⟨e, he, hid⟩ := maxEventId_mem _ hne
  obtain ⟨i, hi, rfl⟩ := (mem_denseLog m n f e).mp he
  have hm0 : (⟨m + (n - 1), f (m + (n - 1))⟩ : CEvent) ∈ denseLog m n f := by
    rw [mem_denseLog]
    exact ⟨n - 1, by omega, rfl⟩
  have h1 : m + (n - 1) ≤ maxEventId (denseLog m n f) := le_maxEventId _ _ hm0
  have h2 : maxEventId (denseLog m n f) = m + i := hid
  omega

theorem denseLog_filter_lt (m n c : Nat) (f : Nat → Nat) :
    ((denseLog m n f).filter (fun e => decide (e.id < c))).length = min n (c - m) := by
  induction n with
  | zero => simp [denseLog]
  | succ n ih =>
    rw [denseLog_succ, List.filter_append, List.length_append, ih, List.filter_cons]
    by_cases hc : m + n < c
    · rw [if_pos (by simp [hc])]
      simp only [List.filter_nil, List.length_cons, List.length_nil]
      omega
    · rw [if_neg (by simp [hc])]
      simp only [List.filter_nil, List.length_nil]
      omega

theorem denseLog_filter_ge_nil (m n c : Nat) (f : Nat → Nat) (h : m + n ≤ c) :
    (denseLog m n f).filter (fun e => decide (¬ e.id < c)) = [] := by
  induction n with
  | zero => simp [denseLog]
  | succ n ih =>
    rw [denseLog_succ, List.filter_append, ih (by omega), List.filter_cons]
    rw [if_neg (by simp only [decide_eq_true_eq, not_not]; omega)]
    simp

theorem denseLog_filter_ge (m n c : Nat) (f : Nat → Nat) (h1 : m ≤ c) (h2 : c ≤ m + n) :
    (denseLog m n f).filter (fun e => decide (¬ e.id < c)) = denseLog c (m + n - c) f := by
  induction n with
  | zero =>
    have : c = m := by omega
    subst this
    simp [denseLog]
  | succ n ih =>
    by_cases hc : c ≤ m + n
    · rw [denseLog_succ, List.filter_append, ih hc, List.filter_cons]
      rw [if_pos (by simp only [decide_eq_true_eq]; omega)]
      have hk : m + (n + 1) - c = (m + n - c) + 1 := by omega
      rw [hk, denseLog_succ]
      have hcc : c + (m + n - c) = m + n := by omega
      rw [hcc]
      simp
    · rw [denseLog_succ, List.filter_append, denseLog_filter_ge_nil m n c f (by omega),
        List.filter_cons]
      rw [if_neg (by simp only [decide_eq_true_eq, not_not]; omega)]
      have h0 : m + (n + 1) - c = 0 := by omega
      rw [h0]
      simp [denseLog]

/-- C5 (amended): for a gap-free event log with ids `m..m+n-1` whose
timestamps are all strictly older than the age cutoff: when
`n ≤ CompactKeepEvents + 1` Compact deletes nothing and reports
`EventsCompacted = 0`, `RemainingEvents = n` (the claim said this only
for `n ≤ CompactKeepEvents`; at `n = CompactKeepEvents + 1` the binary
search hits its `mid = minId` break and also deletes nothing); when
`n ≥ CompactKeepEvents + 2` Compact deletes exactly the `n - keep`
oldest events and reports `EventsCompacted = n - keep`,
`RemainingEvents = keep`. -/
theorem compact_thresholds (m n keep cutoff : Nat) (f : Nat → Nat)
    (hm : 1 ≤ m) (hn : 1 ≤ n)
    (hf : ∀ k, 1 ≤ f k ∧ f k < cutoff) :
    (n ≤ keep + 1 →
      Compact keep cutoff (denseLog m n f) = .ok (⟨0, n⟩, denseLog m n f)) ∧
    (keep + 2 ≤ n →
      Compact keep cutoff (denseLog m n f) =
        .ok (⟨n - keep, keep⟩, denseLog (m + (n - keep)) keep f)) := by
  have hmin : minEventId (denseLog m n f) = m := minEventId_denseLog m n f hn
  have hmax : maxEventId (denseLog m n f) = m + n - 1 := maxEventId_denseLog m n f hn
  have hcut2 : 2 ≤ cutoff := by have := hf 0; omega
  constructor
  · intro hle
    unfold Compact
    dsimp only
    rw [hmin, hmax, if_neg (by omega)]
    have hrem : m + n - 1 - m + 1 = n := by omega
    rw [hrem]
    by_cases hk : n ≤ keep
    · rw [if_pos hk]
    · rw [if_neg hk]
      have hco : m + n - 1 - keep + 1 = m + 1 := by omega
      rw [hco]
      have hfuel : m + 1 - m = 1 := by omega
      rw [hfuel]
      have hbs : binSearchLoop (denseLog m n f) m cutoff 1 m (m + 1) 0 = .ok (m, 0) := by
        rw [binSearchLoop_succ, if_pos (by omega), if_pos (by omega)]
      rw [hbs]
      dsimp only
      rw [if_neg (by omega)]
      have hd : ((denseLog m n f).filter (fun e => decide (e.id < m))).length = 0 := by
        rw [denseLog_filter_lt]
        omega
      rw [hd]
      have hsurv := denseLog_filter_ge m n m f (Nat.le_refl m) (by omega)
      have h2 : m + n - m = n := by omega
      rw [h2] at hsurv
      rw [hsurv]
      simp
  · intro hge
    unfold Compact
    dsimp only
    rw [hmin, hmax, if_neg (by omega)]
    have hrem : m + n - 1 - m + 1 = n := by omega
    rw [hrem, if_neg (by omega)]
    have hco : m + n - 1 - keep + 1 = m + (n - keep) := by omega
    rw [hco]
    have hfuel : m + (n - keep) - m = n - keep := by omega
    rw [hfuel]
    have hallold : ∀ e ∈ denseLog m n f, e.ts < cutoff ∧ 1 ≤ e.ts := by
      intro e he
      obtain ⟨i, hi, rfl⟩ := (mem_denseLog m n f e).mp he
      have := hf (m + i)
      exact ⟨this.2, this.1⟩
    have hminmem : ∃ e ∈ denseLog m n f, e.id = m := by
      refine ⟨⟨m, f m⟩, ?_, rfl⟩
      rw [mem_denseLog]
      exact ⟨0, by omega, by simp⟩
    obtain ⟨ts', hbs, hts'⟩ := binSearchLoop_allOld (denseLog m n f) m cutoff hallold
      hminmem (n - keep) m (m + (n - keep)) 0 (by omega) (by omega) (by omega) (by omega)
    rw [hbs]
    dsimp only
    rw [if_neg (by rcases hts' with h | h <;> omega)]
    have hd : ((denseLog m n f).filter
        (fun e => decide (e.id < m + (n - keep)))).length = n - keep := by
      rw [denseLog_filter_lt]
      omega
    rw [hd]
    have hsurv := denseLog_filter_ge m n (m + (n - keep)) f (by omega) (by omega)
    have h2 : m + n - (m + (n - keep)) = keep := by omega
    rw [h2] at hsurv
    rw [hsurv]
    have h3 : n - (n - keep) = keep := by omega
    rw [h3]

/-- C5 counterexample to the claim as stated: with keep = 1 and a
gap-free all-old log of N = 2 events (N > keep, so the claim predicts
`EventsCompacted = N - keep = 1` and `RemainingEvents = 1`), Compact in
fact deletes nothing and reports `EventsCompacted = 0`,
`RemainingEvents = 2`. -/
theorem compact_thresholds_counterexample :
    Compact 1 2 (denseLog 1 2 (fun _ => 1)) =
        .ok (⟨0, 2⟩, denseLog 1 2 (fun _ => 1)) ∧
      Compact 1 2 (denseLog 1 2 (fun _ => 1)) ≠
        .ok (⟨2 - 1, 1⟩, denseLog (1 + (2 - 1)) 1 (fun _ => 1)) := by
  decide

/-- Closed witness for `compact_thresholds`: m = 1, n = 3, keep = 1,
cutoff = 2, all timestamps 1. -/
theorem compact_thresholds_witness :
    (3 ≤ 1 + 1 →
      Compact 1 2 (denseLog 1 3 (fun _ => 1)) = .ok (⟨0, 3⟩, denseLog 1 3 (fun _ => 1))) ∧
    (1 + 2 ≤ 3 →
      Compact 1 2 (denseLog 1 3 (fun _ => 1)) =
        .ok (⟨3 - 1, 1⟩, denseLog (1 + (3 - 1)) 1 (fun _ => 1))) :=
  compact_thresholds 1 3 1 2 (fun _ => 1) (by decide) (by decide)
    (fun k => ⟨Nat.le_refl 1, one_lt_two⟩)

/-! ## Label filter compiler (internal/filter, unnamed part_006)

Go strings are modelled as `List Char` so that `strings.ReplaceAll` /
`strings.ContainsRune` admit inductive reasoning; `strLit` injects a
Lean string literal as its character list. -/

/-- Character list of a string literal. -/
def strLit (s : String) : List Char := s.data

/-- Label term operators (`resource.LabelOp`; external cosi-runtime enum). -/
inductive LabelOp where
  | opExists
  | opEqual
  | opIn
  | opLTE
  | opLT
  | opLTNumeric
  | opLTENumeric
  deriving DecidableEq, Repr

/-- One label query term (`resource.LabelTerm`): key, operator, values,
invert flag. -/
structure LabelTerm where
  key : List Char
  op : LabelOp
  value : List (List Char)
  invert : Bool

/-- `strings.ContainsRune`. -/
def containsChar (s : List Char) (c : Char) : Bool := s.any (fun x => x = c)

/-- `strings.ReplaceAll(value, "'", "''")`: double every single quote. -/
def escapeQuotes (s : List Char) : List Char :=
  (s.map (fun c => if c = '\'' then ['\'', '\''] else [c])).flatten

/-- `quote` (part_006 lines 55-57): wrap in single quotes, doubling
internal single quotes. -/
def quote (value : List Char) : List Char := '\'' :: escapeQuotes value ++ ['\'']

/-- `strings.Join(l, sep)`. -/
def joinSep (sep : List Char) : List (List Char) → List Char
  | [] => []
  | [x] => x
  | x :: rest => x ++ sep ++ joinSep sep (rest)

/-- The JSON-path selector `labels ->> '$."key"'` (part_006 line 67). -/
def selector (key : List Char) : List Char :=
  strLit "labels ->> " ++ quote (strLit "$.\"" ++ key ++ ['"'])

/-- `CompileLabelQueryTerm` (part_006 lines 60-112). -/
def CompileLabelQueryTerm (t : LabelTerm) : List Char :=
  if containsChar t.key '"' then []
  else
    match t.op with
    | .opExists =>
      if t.invert then selector t.key ++ strLit " IS NULL"
      else selector t.key ++ strLit " IS NOT NULL"
    | .opEqual =>
      match t.value with
      | [] => if t.invert then strLit "true" else strLit "false"
      | v :: _ =>
        if t.invert then selector t.key ++ strLit " != " ++ quote v
        else selector t.key ++ strLit " = " ++ quote v
    | .opIn =>
      match t.value with
      | [] => if t.invert then strLit "true" else strLit "false"
      | _ =>
        if t.invert then
          selector t.key ++ strLit " NOT IN (" ++ joinSep (strLit ", ") (t.value.map quote) ++ [')']
        else
          selector t.key ++ strLit " IN (" ++ joinSep (strLit ", ") (t.value.map quote) ++ [')']
    | .opLTE | .opLT | .opLTNumeric | .opLTENumeric => []

/-- `CompileLabelQuery` (part_006 lines 37-52): conjunction of the
supported terms, `true` if none. -/
def CompileLabelQuery (terms : List LabelTerm) : List Char :=
  let compiled := ((terms.map CompileLabelQueryTerm).filter (fun c => c ≠ [])).map
    (fun c => '(' :: (c ++ [')']))
  if compiled = [] then strLit "true"
  else '(' :: (joinSep (strLit " AND ") compiled ++ [')'])

/-- `CompileLabelQueries` (part_006 lines 26-34): disjunction of the
compiled queries, `true` when the join is empty. -/
def CompileLabelQueries (queries : List (List LabelTerm)) : List Char :=
  if joinSep (strLit " OR ") (queries.map CompileLabelQuery) = [] then strLit "true"
  else joinSep (strLit " OR ") (queries.map CompileLabelQuery)

theorem escapeQuotes_append (a b : List Char) :
    escapeQuotes (a ++ b) = escapeQuotes a ++ escapeQuotes b := by
  simp [escapeQuotes]

theorem escapeQuotes_of_no_quote (v : List Char) (h : containsChar v '\'' = false) :
    escapeQuotes v = v := by
  induction v with
  | nil => rfl
  | cons c rest ih =>
    simp only [containsChar, List.any_cons, Bool.or_eq_false_iff] at h
    simp only [escapeQuotes, List.map_cons, List.flatten]
    rw [if_neg (by simpa using h.1)]
    have := ih (by simpa [containsChar] using h.2)
    simp only [escapeQuotes] at this
    simp [this]

theorem quote_of_no_quote (v : List Char) (h : containsChar v '\'' = false) :
    quote v = '\'' :: v ++ ['\''] := by
  rw [quote, escapeQuotes_of_no_quote v h]

theorem containsChar_append (a b : List Char) (c : Char) :
    containsChar (a ++ b) c = (containsChar a c || containsChar b c) := by
  simp [containsChar]

theorem selector_eq (key : List Char) (h : containsChar key '\'' = false) :
    selector key = strLit "labels ->> '$.\"" ++ key ++ strLit "\"'" := by
  rw [selector, quote_of_no_quote]
  · have h1 : strLit "labels ->> '$.\"" = strLit "labels ->> " ++ '\'' :: strLit "$.\"" := by
      decide
    have h2 : strLit "\"'" = ['"'] ++ ['\''] := by decide
    rw [h1, h2]
    simp
  · rw [containsChar_append, containsChar_append, h]
    decide

/-- C8: the label query compiler emits `true` for an empty query list;
the empty string for keys holding a double quote and for the LT/LTE/
numeric operators; the JSON-path `IS NOT NULL` / `IS NULL` forms for
EXISTS; `false`/`true` for EQUAL and IN with no values; and wraps every
embedded value in single quotes, doubling internal single quotes. -/
theorem label_compiler_spec (t : LabelTerm) (key v : List Char)
    (hkeyq : containsChar key '"' = false)
    (hkeya : containsChar key '\'' = false) :
    CompileLabelQueries [] = strLit "true" ∧
    (containsChar t.key '"' = true → CompileLabelQueryTerm t = []) ∧
    ((t.op = .opLTE ∨ t.op = .opLT ∨ t.op = .opLTNumeric ∨ t.op = .opLTENumeric) →
      CompileLabelQueryTerm t = []) ∧
    (∀ vs, CompileLabelQueryTerm ⟨key, .opExists, vs, false⟩ =
      strLit "labels ->> '$.\"" ++ key ++ strLit "\"' IS NOT NULL") ∧
    (∀ vs, CompileLabelQueryTerm ⟨key, .opExists, vs, true⟩ =
      strLit "labels ->> '$.\"" ++ key ++ strLit "\"' IS NULL") ∧
    (containsChar t.key '"' = false → t.op = .opEqual ∨ t.op = .opIn → t.value = [] →
      CompileLabelQueryTerm t = if t.invert then strLit "true" else strLit "false") ∧
    quote v = '\'' :: escapeQuotes v ++ ['\''] ∧
    (containsChar v '\'' = false → quote v = '\'' :: v ++ ['\'']) ∧
    quote (strLit "a'b") = strLit "'a''b'" := by
  obtain ⟨k, op, vs, inv⟩ := t
  refine ⟨rfl, ?_, ?_, ?_, ?_, ?_, rfl, quote_of_no_quote v, by decide⟩
  · intro h
    simp only [CompileLabelQueryTerm]
    rw [if_pos h]
  · intro h
    simp only at h
    rcases h with h | h | h | h <;> subst h <;>
      simp only [CompileLabelQueryTerm] <;> split_ifs <;> rfl
  · intro vs2
    simp only [CompileLabelQueryTerm]
    rw [if_neg (by simp [hkeyq]), selector_eq key hkeya]
    rw [if_neg (by simp)]
    have h1 : strLit "\"'" ++ strLit " IS NOT NULL" = strLit "\"' IS NOT NULL" := by decide
    simp only [List.append_assoc]
    rw [h1]
  · intro vs2
    simp only [CompileLabelQueryTerm]
    rw [if_neg (by simp [hkeyq]), selector_eq key hkeya]
    rw [if_pos trivial]
    have h1 : strLit "\"'" ++ strLit " IS NULL" = strLit "\"' IS NULL" := by decide
    simp only [List.append_assoc]
    rw [h1]
  · intro hkq hop hval
    simp only at hkq hop hval
    subst hval
    rcases hop with h | h <;> subst h <;> simp only [CompileLabelQueryTerm] <;>
      rw [if_neg (by simp [hkq])]

/-- Closed witness for `label_compiler_spec`: the EXISTS form at key
`foo.bar`. -/
theorem label_compiler_spec_witness :
    CompileLabelQueryTerm ⟨strLit "foo.bar", .opExists, [], false⟩ =
      strLit "labels ->> '$.\"" ++ strLit "foo.bar" ++ strLit "\"' IS NOT NULL" :=
  (label_compiler_spec ⟨strLit "x", .opEqual, [], false⟩ (strLit "foo.bar") (strLit "v")
    (by decide) (by decide)).2.2.2.1 []

/-! ## Subscription notifier (internal/sub/sub.go)

A wakeup channel (`make(chan struct{}, 1)`) is modelled by its number of
buffered wakeups; the manager's `map[key][]chan` is flattened to the
list of its subscriptions.  Lock-protected sections execute atomically
in this sequential model. -/

/-- Subscription key: the `(namespace, type)` pair (sub.go `key`). -/
structure SubKey where
  ns : String
  typ : String
  deriving DecidableEq, Repr

/-- The non-blocking send (`select { case ch <- struct{}{}: default: }`
in sub.go `Notify`/`TriggerNotify`): enqueue when the capacity-1 buffer
has room, drop otherwise. -/
def trySend (c : Nat) : Nat := if c < 1 then c + 1 else c

/-- One subscription: its key and the buffered wakeup count of its channel. -/
structure Sub where
  key : SubKey
  ch : Nat
  deriving DecidableEq, Repr

/-- `Subscribe` (sub.go 48-66): append a fresh empty channel under the key. -/
def Subscribe (m : List Sub) (k : SubKey) : List Sub := m ++ [⟨k, 0⟩]

/-- `Notify` (sub.go 69-85): non-blocking send to every channel under
the key; other keys untouched. -/
def Notify (m : List Sub) (k : SubKey) : List Sub :=
  m.map (fun s => if s.key = k then ⟨s.key, trySend s.ch⟩ else s)

/-- `TriggerNotify` (sub.go 101-106): non-blocking send on one subscription. -/
def TriggerNotify (s : Sub) : Sub := ⟨s.key, trySend s.ch⟩

/-- A watcher draining its wakeup channel (`<-sub.NotifyCh()`). -/
def drainWakeup (s : Sub) : Sub := ⟨s.key, s.ch - 1⟩

/-- `n` consecutive `Notify` calls on the same key with no intervening drain. -/
def notifyN (m : List Sub) (k : SubKey) : Nat → List Sub
  | 0 => m
  | n + 1 => Notify (notifyN m k n) k

theorem notify_cap (m : List Sub) (k : SubKey) (hcap : ∀ s ∈ m, s.ch ≤ 1) :
    ∀ s ∈ Notify m k, s.ch ≤ 1 := by
  intro s hs
  obtain ⟨t, ht, hts⟩ := List.mem_map.mp hs
  have := hcap t ht
  by_cases hk : t.key = k
  · rw [if_pos hk] at hts
    rw [← hts]
    simp only [trySend]
    split_ifs <;> omega
  · rw [if_neg hk] at hts
    rw [← hts]
    exact this

theorem notifyN_cap (m : List Sub) (k : SubKey) (n : Nat)
    (hcap : ∀ s ∈ m, s.ch ≤ 1) : ∀ s ∈ notifyN m k n, s.ch ≤ 1 := by
  induction n with
  | zero => exact hcap
  | succ n ih => exact notify_cap _ _ ih

/-- C9: wakeup channels hold at most one pending wakeup through
Subscribe/Notify/TriggerNotify/drain; `Notify` and `TriggerNotify` are
non-blocking sends dropped when a wakeup is pending; after `n ≥ 1`
notifies on key `k` with no drain, every subscription under `k` has
exactly one pending wakeup; `Notify` leaves subscriptions under other
keys untouched. -/
theorem notifier_coalescing (m : List Sub) (k : SubKey) (n : Nat)
    (hcap : ∀ s ∈ m, s.ch ≤ 1) (hn : 1 ≤ n) :
    (∀ s ∈ Notify m k, s.ch ≤ 1) ∧
    (∀ s ∈ Subscribe m k, s.ch ≤ 1) ∧
    (∀ s ∈ m, (TriggerNotify s).ch ≤ 1 ∧ (drainWakeup s).ch ≤ 1) ∧
    (∀ c, 1 ≤ c → trySend c = c) ∧
    (∀ s ∈ notifyN m k n, s.key = k → s.ch = 1) ∧
    (∀ i (h : i < m.length) (h2 : i < (Notify m k).length),
      (m.get ⟨i, h⟩).key ≠ k → (Notify m k).get ⟨i, h2⟩ = m.get ⟨i, h⟩) := by
  refine ⟨notify_cap m k hcap, ?_, ?_, ?_, ?_, ?_⟩
  · intro s hs
    rcases List.mem_append.mp hs with h | h
    · exact hcap s h
    · simp only [List.mem_singleton] at h
      rw [h]
      exact Nat.zero_le 1
  · intro s hs
    have := hcap s hs
    constructor
    · simp only [TriggerNotify, trySend]
      split_ifs <;> omega
    · simp only [drainWakeup]
      omega
  · intro c hc
    simp only [trySend]
    rw [if_neg (by omega)]
  · obtain ⟨n, rfl⟩ : ∃ n2, n = n2 + 1 := ⟨n - 1, by omega⟩
    intro s hs hsk
    have hcapN := notifyN_cap m k n hcap
    simp only [notifyN] at hs
    obtain ⟨t, ht, hts⟩ := List.mem_map.mp hs
    by_cases hk : t.key = k
    · rw [if_pos hk] at hts
      have := hcapN t ht
      rw [← hts]
      simp only [trySend]
      split_ifs <;> omega
    · rw [if_neg hk] at hts
      rw [← hts] at hsk
      exact absurd hsk hk
  · intro i h h2 hne
    simp only [Notify, List.get_eq_getElem, List.getElem_map]
    rw [if_neg (by simpa [List.get_eq_getElem] using hne)]

/-- Closed witness for `notifier_coalescing`: one subscription under a
key, three notifies, one pending wakeup. -/
theorem notifier_coalescing_witness :
    (⟨⟨"ns1", "path"⟩, 1⟩ : Sub).ch = 1 :=
  (notifier_coalescing [⟨⟨"ns1", "path"⟩, 0⟩] ⟨"ns1", "path"⟩ 3
    (by decide) (by decide)).2.2.2.2.1 ⟨⟨"ns1", "path"⟩, 1⟩ (by decide) (by decide)

/-! ## Write path (modify.go) and journal triggers (schema.sql)

The database is a pair of row lists plus the events rowid counter; each
Create/Update/Destroy is one transaction, returned as
`Option WriteErr × DB`: an error result carries the original `DB`
(the transaction rolls back), success carries the committed one.  The
AFTER INSERT/UPDATE/DELETE triggers of schema.sql are part of the same
transaction, so the model appends the event rows inside the operation.
Resource metadata (cosi-runtime, external) is the `Meta` record; specs
are opaque bytes produced by the injected `Marshaler`. -/

/-- Opaque marshalled bytes. -/
abbrev Bytes := List Nat

/-- Resource metadata plus identity (cosi `resource.Metadata`); the
opaque spec body is represented only through its marshalled bytes. -/
structure Meta where
  ns : String
  typ : String
  rid : String
  version : Nat
  created : Int
  updated : Int
  labels : List (String × String)
  fins : List String
  phase : Int
  owner : String
  deriving DecidableEq, Repr

/-- A resource pointer `(namespace, type, id)`. -/
structure RPtr where
  ns : String
  typ : String
  rid : String
  deriving DecidableEq, Repr

/-- The store's marshaler contract (`store.Marshaler`, external):
`MarshalResource` / `UnmarshalResource`, both fallible. -/
structure Marshaler where
  marshal : Meta → Option Bytes
  unmarshal : Bytes → Option Meta

/-- One row of the resources table (schema.sql lines 20-34); labels and
finalizers are kept structurally rather than as JSONB bytes. -/
structure Row where
  ns : String
  typ : String
  rid : String
  version : Nat
  createdAt : Int
  updatedAt : Int
  labels : List (String × String)
  fins : List String
  phase : Int
  owner : String
  spec : Bytes
  deriving DecidableEq, Repr

/-- One row of the events table (schema.sql lines 36-45). -/
structure EventRow where
  id : Nat
  ns : String
  typ : String
  rid : String
  ts : Int
  etype : Nat
  specBefore : Option Bytes
  specAfter : Option Bytes
  deriving DecidableEq, Repr

/-- The two tables plus the events rowid counter. -/
structure DB where
  resources : List Row
  events : List EventRow
  nextEventId : Nat
  deriving DecidableEq, Repr

/-- Error kinds of the write path (errors.go). -/
inductive WriteErr where
  | alreadyExists
  | notFound
  | versionConflict (expected actual : Nat)
  | ownerConflict (current : String)
  | phaseConflict (expected : Int)
  | pendingFinalizers (fins : List String)
  | marshalFailure
  | setOwnerFailure
  deriving DecidableEq, Repr

/-- `state.CreateOptions`. -/
structure CreateOptions where
  owner : String
  deriving DecidableEq, Repr

/-- `state.UpdateOptions`. -/
structure UpdateOptions where
  owner : String
  expectedPhase : Option Int
  deriving DecidableEq, Repr

/-- `state.DestroyOptions`. -/
structure DestroyOptions where
  owner : String
  deriving DecidableEq, Repr

/-- `SELECT … FROM resources WHERE namespace = ? AND type = ? AND id = ?`. -/
def findRow (rows : List Row) (ns typ rid : String) : Option Row :=
  rows.find? (fun r => r.ns = ns ∧ r.typ = typ ∧ r.rid = rid)

/-- The rows hit by the guarded UPDATE/DELETE
`WHERE namespace=? AND type=? AND id=? AND version=?`. -/
def matchedRows (rows : List Row) (ns typ rid : String) (ver : Nat) : List Row :=
  rows.filter (fun r => r.ns = ns ∧ r.typ = typ ∧ r.rid = rid ∧ r.version = ver)

/-- `Create` (modify.go 26-127): deep copy, set owner (the cosi metadata
layer rejects a non-empty owner different from the option's — modelled
from the spec clause "must equal configured; metadata layer rejects
mismatch"), stamp `created = updated = now`, bump the version, marshal,
INSERT (unique violation ⇒ already-exists), with the AFTER INSERT
trigger appending the type-1 event in the same transaction. -/
def createCopy (res : Meta) (owner : String) (now : Int) : Meta :=
  { res with owner := owner, created := now, updated := now,
             version := res.version + 1 }

def createRes (M : Marshaler) (db : DB) (res : Meta) (opts : CreateOptions)
    (now : Int) : Option WriteErr × DB :=
  if res.owner ≠ "" ∧ res.owner ≠ opts.owner then
    (some .setOwnerFailure, db)
  else
    let resCopy : Meta := createCopy res opts.owner now
    match M.marshal resCopy with
    | none => (some .marshalFailure, db)
    | some m =>
      if (findRow db.resources res.ns res.typ res.rid).isSome then
        (some .alreadyExists, db)
      else
        (none,
          { resources := db.resources ++
              [⟨res.ns, res.typ, res.rid, resCopy.version, now, now,
                res.labels, res.fins, res.phase, opts.owner, m⟩],
            events := db.events ++
              [⟨db.nextEventId, res.ns, res.typ, res.rid, now, 1, none, some m⟩],
            nextEventId := db.nextEventId + 1 })

/-- The body of `Update` after all three precondition checks passed
(modify.go 207-276): stamp `updated = now`, keep `created`, bump the
version, marshal, run the guarded UPDATE (each updated row fires the
AFTER UPDATE trigger with `OLD.spec`/`NEW.spec`), and fail with
version-conflict when the affected row count is not 1 (rolling back). -/
def updateCopy (newRes : Meta) (now : Int) (curCreatedAt : Int) : Meta :=
  { newRes with updated := now, created := curCreatedAt,
                version := newRes.version + 1 }

def updatePerform (M : Marshaler) (db : DB) (newRes : Meta) (now : Int)
    (curVersion : Nat) (curCreatedAt : Int) : Option WriteErr × DB :=
  let resCopy : Meta := updateCopy newRes now curCreatedAt
  match M.marshal resCopy with
  | none => (some .marshalFailure, db)
  | some m =>
    let matched := matchedRows db.resources newRes.ns newRes.typ newRes.rid curVersion
    if matched.length ≠ 1 then
      (some (.versionConflict newRes.version curVersion), db)
    else
      (none,
        { resources := db.resources.map (fun r =>
            if r.ns = newRes.ns ∧ r.typ = newRes.typ ∧ r.rid = newRes.rid ∧
                r.version = curVersion then
              ⟨r.ns, r.typ, r.rid, resCopy.version, r.createdAt, now,
                newRes.labels, newRes.fins, newRes.phase, newRes.owner, m⟩
            else r),
          events := db.events ++ matched.enum.map (fun ir =>
            ⟨db.nextEventId + ir.1, ir.2.ns, ir.2.typ, ir.2.rid, now, 2,
              some ir.2.spec, some m⟩),
          nextEventId := db.nextEventId + matched.length })

/-- `Update` (modify.go 136-289): SELECT current row (not-found),
then the three precondition checks in order (version, owner, phase),
then the guarded UPDATE via `updatePerform`. -/
def updateRes (M : Marshaler) (db : DB) (newRes : Meta) (opts : UpdateOptions)
    (now : Int) : Option WriteErr × DB :=
  match findRow db.resources newRes.ns newRes.typ newRes.rid with
  | none => (some .notFound, db)
  | some cur =>
    if cur.version ≠ newRes.version then
      (some (.versionConflict newRes.version cur.version), db)
    else if cur.owner ≠ opts.owner then
      (some (.ownerConflict cur.owner), db)
    else
      match opts.expectedPhase with
      | some p =>
        if cur.phase ≠ p then (some (.phaseConflict p), db)
        else updatePerform M db newRes now cur.version cur.createdAt
      | none => updatePerform M db newRes now cur.version cur.createdAt

/-- `Destroy` (modify.go 295-403): SELECT current row (not-found), owner
check, pending-finalizers check, guarded DELETE (each deleted row fires
the AFTER DELETE trigger), version-conflict when affected rows ≠ 1. -/
def destroyRes (db : DB) (p : RPtr) (opts : DestroyOptions) (now : Int) :
    Option WriteErr × DB :=
  match findRow db.resources p.ns p.typ p.rid with
  | none => (some .notFound, db)
  | some cur =>
    if cur.owner ≠ opts.owner then
      (some (.ownerConflict cur.owner), db)
    else if cur.fins ≠ [] then
      (some (.pendingFinalizers cur.fins), db)
    else
      let matched := matchedRows db.resources p.ns p.typ p.rid cur.version
      if matched.length ≠ 1 then
        (some (.versionConflict cur.version cur.version), db)
      else
        (none,
          { resources := db.resources.filter (fun r =>
              ¬ (r.ns = p.ns ∧ r.typ = p.typ ∧ r.rid = p.rid ∧ r.version = cur.version)),
            events := db.events ++ matched.enum.map (fun ir =>
              ⟨db.nextEventId + ir.1, ir.2.ns, ir.2.typ, ir.2.rid, now, 3,
                some ir.2.spec, none⟩),
            nextEventId := db.nextEventId + matched.length })

/-- C2: Update on an existing resource checks its preconditions in
order — (1) stored version vs caller version, failing with
version-conflict(expected = caller version, actual = stored version);
(2) stored owner vs options owner, failing with owner-conflict;
(3) ExpectedPhase when set, failing with phase-conflict — and when all
pass but the guarded UPDATE hits a row count other than 1, fails with
the same version-conflict. -/
theorem update_precondition_order (M : Marshaler) (db : DB) (newRes : Meta)
    (opts : UpdateOptions) (now : Int) (cur : Row)
    (hfind : findRow db.resources newRes.ns newRes.typ newRes.rid = some cur) :
    (cur.version ≠ newRes.version →
      updateRes M db newRes opts now =
        (some (.versionConflict newRes.version cur.version), db)) ∧
    (cur.version = newRes.version → cur.owner ≠ opts.owner →
      updateRes M db newRes opts now = (some (.ownerConflict cur.owner), db)) ∧
    (∀ p, cur.version = newRes.version → cur.owner = opts.owner →
      opts.expectedPhase = some p → cur.phase ≠ p →
      updateRes M db newRes opts now = (some (.phaseConflict p), db)) ∧
    (∀ m, cur.version = newRes.version → cur.owner = opts.owner →
      (opts.expectedPhase = none ∨ opts.expectedPhase = some cur.phase) →
      M.marshal (updateCopy newRes now cur.createdAt) = some m →
      (matchedRows db.resources newRes.ns newRes.typ newRes.rid cur.version).length ≠ 1 →
      updateRes M db newRes opts now =
        (some (.versionConflict newRes.version cur.version), db)) := by
  refine ⟨?_, ?_, ?_, ?_⟩
  · intro hv
    unfold updateRes
    rw [hfind]
    dsimp only
    rw [if_pos hv]
  · intro hv ho
    unfold updateRes
    rw [hfind]
    dsimp only
    rw [if_neg (by omega), if_pos ho]
  · intro p hv ho hp hph
    unfold updateRes
    rw [hfind]
    dsimp only
    rw [if_neg (by omega), if_neg (by simp [ho]), hp]
    dsimp only
    rw [if_pos hph]
  · intro m hv ho hp hm hcount
    unfold updateRes
    rw [hfind]
    dsimp only
    rw [if_neg (by omega), if_neg (by simp [ho])]
    have hrest : updatePerform M db newRes now cur.version cur.createdAt =
        (some (.versionConflict newRes.version cur.version), db) := by
      unfold updatePerform
      dsimp only
      rw [hm]
      dsimp only
      rw [if_pos hcount]
    rcases hp with h | h <;> rw [h] <;> dsimp only
    · exact hrest
    · rw [if_neg (by simp)]
      exact hrest

/-- Closed witness for `update_precondition_order`: a store whose row
has version 5 while the caller expects version 4 yields
version-conflict(4, 5). -/
theorem update_precondition_order_witness :
    updateRes ⟨fun _ => some [], fun _ => none⟩
        ⟨[⟨"n", "t", "i", 5, 0, 0, [], [], 0, "", []⟩], [], 1⟩
        ⟨"n", "t", "i", 4, 0, 0, [], [], 0, ""⟩ ⟨"", none⟩ 0 =
      (some (.versionConflict 4 5),
        ⟨[⟨"n", "t", "i", 5, 0, 0, [], [], 0, "", []⟩], [], 1⟩) :=
  (update_precondition_order ⟨fun _ => some [], fun _ => none⟩
      ⟨[⟨"n", "t", "i", 5, 0, 0, [], [], 0, "", []⟩], [], 1⟩
      ⟨"n", "t", "i", 4, 0, 0, [], [], 0, ""⟩ ⟨"", none⟩ 0
      ⟨"n", "t", "i", 5, 0, 0, [], [], 0, "", []⟩ (by decide)).1 (by decide)

/-- C3: every successful Create/Update/Destroy appends exactly one new
event row with the operation's `(namespace, type, id)` and event_type
1/2/3 respectively (the trigger fires inside the same transaction);
every failed call leaves the database — resources and events — exactly
as it was (the transaction rolls back). -/
theorem write_event_atomicity (M : Marshaler) (db : DB) (res : Meta) (p : RPtr)
    (copts : CreateOptions) (uopts : UpdateOptions) (dopts : DestroyOptions)
    (now : Int) :
    (∀ err db2, createRes M db res copts now = (some err, db2) → db2 = db) ∧
    (∀ db2, createRes M db res copts now = (none, db2) →
      ∃ m, db2.events = db.events ++
        [⟨db.nextEventId, res.ns, res.typ, res.rid, now, 1, none, some m⟩]) ∧
    (∀ err db2, updateRes M db res uopts now = (some err, db2) → db2 = db) ∧
    (∀ db2, updateRes M db res uopts now = (none, db2) →
      ∃ sb m, db2.events = db.events ++
        [⟨db.nextEventId, res.ns, res.typ, res.rid, now, 2, some sb, some m⟩]) ∧
    (∀ err db2, destroyRes db p dopts now = (some err, db2) → db2 = db) ∧
    (∀ db2, destroyRes db p dopts now = (none, db2) →
      ∃ sb, db2.events = db.events ++
        [⟨db.nextEventId, p.ns, p.typ, p.rid, now, 3, some sb, none⟩]) := by
  have pairInj : ∀ (a c : Option WriteErr) (b d : DB), (a, b) = (c, d) → a = c ∧ b = d :=
    fun a c b d h => Prod.mk.inj h
  refine ⟨?_, ?_, ?_, ?_, ?_, ?_⟩
  · intro err db2 h
    unfold createRes at h
    dsimp only at h
    split_ifs at h with h1 h2
    · exact ((pairInj _ _ _ _ h).2).symm
    · rcases hm : M.marshal (createCopy res copts.owner now) with _ | m <;>
        rw [hm] at h <;> dsimp only at h
      · exact ((pairInj _ _ _ _ h).2).symm
      · exact ((pairInj _ _ _ _ h).2).symm
    · rcases hm : M.marshal (createCopy res copts.owner now) with _ | m <;>
        rw [hm] at h <;> dsimp only at h
      · exact ((pairInj _ _ _ _ h).2).symm
      · exact Option.noConfusion ((pairInj _ _ _ _ h).1)
  · intro db2 h
    unfold createRes at h
    dsimp only at h
    split_ifs at h with h1 h2
    · exact Option.noConfusion ((pairInj _ _ _ _ h).1)
    · rcases hm : M.marshal (createCopy res copts.owner now) with _ | m <;>
        rw [hm] at h <;> dsimp only at h
      · exact Option.noConfusion ((pairInj _ _ _ _ h).1)
      · exact Option.noConfusion ((pairInj _ _ _ _ h).1)
    · rcases hm : M.marshal (createCopy res copts.owner now) with _ | m <;>
        rw [hm] at h <;> dsimp only at h
      · exact Option.noConfusion ((pairInj _ _ _ _ h).1)
      · refine ⟨m, ?_⟩
        rw [← (pairInj _ _ _ _ h).2]
  · intro err db2 h
    unfold updateRes at h
    rcases hf : findRow db.resources res.ns res.typ res.rid with _ | cur <;>
      rw [hf] at h <;> dsimp only at h
    · exact ((pairInj _ _ _ _ h).2).symm
    · split_ifs at h with h1 h2
      · exact ((pairInj _ _ _ _ h).2).symm
      · exact ((pairInj _ _ _ _ h).2).symm
      · rcases hp : uopts.expectedPhase with _ | ph <;> rw [hp] at h <;> dsimp only at h
        · unfold updatePerform at h
          dsimp only at h
          rcases hm : M.marshal (updateCopy res now cur.createdAt) with _ | m <;>
            rw [hm] at h <;> dsimp only at h
          · exact ((pairInj _ _ _ _ h).2).symm
          · split_ifs at h with h3
            · exact ((pairInj _ _ _ _ h).2).symm
            · exact Option.noConfusion ((pairInj _ _ _ _ h).1)
        · split_ifs at h with h3
          · exact ((pairInj _ _ _ _ h).2).symm
          · unfold updatePerform at h
            dsimp only at h
            rcases hm : M.marshal (updateCopy res now cur.createdAt) with _ | m <;>
              rw [hm] at h <;> dsimp only at h
            · exact ((pairInj _ _ _ _ h).2).symm
            · split_ifs at h with h4
              · exact ((pairInj _ _ _ _ h).2).symm
              · exact Option.noConfusion ((pairInj _ _ _ _ h).1)
  · intro db2 h
    unfold updateRes at h
    rcases hf : findRow db.resources res.ns res.typ res.rid with _ | cur <;>
      rw [hf] at h <;> dsimp only at h
    · exact Option.noConfusion ((pairInj _ _ _ _ h).1)
    · split_ifs at h with h1 h2
      · exact Option.noConfusion ((pairInj _ _ _ _ h).1)
      · exact Option.noConfusion ((pairInj _ _ _ _ h).1)
      · have core : ∀ db3,
            updatePerform M db res now cur.version cur.createdAt = (none, db3) →
            ∃ sb m, db3.events = db.events ++
              [⟨db.nextEventId, res.ns, res.typ, res.rid, now, 2, some sb, some m⟩] := by
          intro db3 h3
          unfold updatePerform at h3
          dsimp only at h3
          rcases hm : M.marshal (updateCopy res now cur.createdAt) with _ | m <;>
            rw [hm] at h3 <;> dsimp only at h3
          · exact Option.noConfusion ((pairInj _ _ _ _ h3).1)
          · split_ifs at h3 with h4
            · exact Option.noConfusion ((pairInj _ _ _ _ h3).1)
            · obtain ⟨r, hr⟩ := List.length_eq_one.mp (by omega :
                (matchedRows db.resources res.ns res.typ res.rid cur.version).length = 1)
              have hrmem : r ∈ matchedRows db.resources res.ns res.typ res.rid cur.version := by
                rw [hr]
                exact List.mem_singleton.mpr rfl
              obtain ⟨-, hprops⟩ := List.mem_filter.mp hrmem
              simp only [decide_eq_true_eq] at hprops
              refine ⟨r.spec, m, ?_⟩
              rw [← (pairInj _ _ _ _ h3).2]
              simp only [hr, List.enum]
              simp [hprops.1, hprops.2.1, hprops.2.2.1]
        rcases hp : uopts.expectedPhase with _ | ph <;> rw [hp] at h <;> dsimp only at h
        · exact core db2 h
        · split_ifs at h with h3
          · exact Option.noConfusion ((pairInj _ _ _ _ h).1)
          · exact core db2 h
  · intro err db2 h
    unfold destroyRes at h
    rcases hf : findRow db.resources p.ns p.typ p.rid with _ | cur <;>
      rw [hf] at h <;> dsimp only at h
    · exact ((pairInj _ _ _ _ h).2).symm
    · split_ifs at h with h1 h2 h3
      · exact ((pairInj _ _ _ _ h).2).symm
      · exact ((pairInj _ _ _ _ h).2).symm
      · exact ((pairInj _ _ _ _ h).2).symm
      · exact Option.noConfusion ((pairInj _ _ _ _ h).1)
  · intro db2 h
    unfold destroyRes at h
    rcases hf : findRow db.resources p.ns p.typ p.rid with _ | cur <;>
      rw [hf] at h <;> dsimp only at h
    · exact Option.noConfusion ((pairInj _ _ _ _ h).1)
    · split_ifs at h with h1 h2 h3
      · exact Option.noConfusion ((pairInj _ _ _ _ h).1)
      · exact Option.noConfusion ((pairInj _ _ _ _ h).1)
      · exact Option.noConfusion ((pairInj _ _ _ _ h).1)
      · obtain ⟨r, hr⟩ := List.length_eq_one.mp (by omega :
          (matchedRows db.resources p.ns p.typ p.rid cur.version).length = 1)
        have hrmem : r ∈ matchedRows db.resources p.ns p.typ p.rid cur.version := by
          rw [hr]
          exact List.mem_singleton.mpr rfl
        obtain ⟨-, hprops⟩ := List.mem_filter.mp hrmem
        simp only [decide_eq_true_eq] at hprops
        refine ⟨r.spec, ?_⟩
        rw [← (pairInj _ _ _ _ h).2]
        simp only [hr, List.enum]
        simp [hprops.1, hprops.2.1, hprops.2.2.1]

/-- Closed witness for `write_event_atomicity`: a successful Create on
an empty store appends exactly the one type-1 event row. -/
theorem write_event_atomicity_witness :
    ∃ m, (⟨[⟨"n", "t", "i", 1, 0, 0, [], [], 0, "", [7]⟩],
        [⟨1, "n", "t", "i", 0, 1, none, some [7]⟩], 2⟩ : DB).events =
      (⟨[], [], 1⟩ : DB).events ++ [⟨1, "n", "t", "i", 0, 1, none, some m⟩] :=
  (write_event_atomicity ⟨fun _ => some [7], fun _ => none⟩ ⟨[], [], 1⟩
      ⟨"n", "t", "i", 0, 0, 0, [], [], 0, ""⟩ ⟨"n", "t", "i"⟩ ⟨""⟩ ⟨"", none⟩ ⟨""⟩
      0).2.1
    ⟨[⟨"n", "t", "i", 1, 0, 0, [], [], 0, "", [7]⟩],
      [⟨1, "n", "t", "i", 0, 1, none, some [7]⟩], 2⟩ (by decide)

/-! ## Watch engine (watch.go)

`convertEvent`, the kind-watch match-transition rewriting, the per-row
processing of the streaming loop, one streaming-loop iteration for point
and kind watches, and the synchronous setup dispatch.  The marshaler's
`UnmarshalResource` and the in-memory `matches` predicate are function
parameters; a NULL spec column reads as empty bytes
(`make([]byte, stmt.GetLen(...))` on NULL gives length 0). -/

/-- `state.EventType` (cosi-runtime tagged union tags). -/
inductive EvType where
  | created
  | updated
  | destroyed
  | bootstrapped
  | noop
  | errored
  deriving DecidableEq, Repr

/-- `state.Event`: tag, resource, old resource, bookmark, error message. -/
structure WEvent where
  typ : EvType
  res : Option Meta
  old : Option Meta
  bookmark : Option (List Nat)
  errMsg : Option String
  deriving DecidableEq, Repr

/-- An `Errored` event carrying a message (no resource, no bookmark). -/
def erroredEvent (msg : String) : WEvent := ⟨.errored, none, none, none, some msg⟩

/-- `convertEvent` (watch.go 36-92): event types 1/2/3 become
Created/Updated/Destroyed with the unmarshalled specs, any unmarshal
failure or unknown type becomes `Errored`; non-error events carry the
encoded event id as bookmark. -/
def convertEvent (unmarshal : Bytes → Option Meta) (eventID : Nat)
    (specBefore specAfter : Bytes) (eventType : Nat) : WEvent :=
  match eventType with
  | 1 =>
    match unmarshal specAfter with
    | none => erroredEvent "unmarshal created event"
    | some r => ⟨.created, some r, none, some (encodeBookmark eventID), none⟩
  | 2 =>
    match unmarshal specAfter with
    | none => erroredEvent "unmarshal updated event"
    | some r =>
      match unmarshal specBefore with
      | none => erroredEvent "unmarshal old resource for updated event"
      | some oldR => ⟨.updated, some r, some oldR, some (encodeBookmark eventID), none⟩
  | 3 =>
    match unmarshal specBefore with
    | none => erroredEvent "unmarshal deleted event"
    | some r => ⟨.destroyed, some r, none, some (encodeBookmark eventID), none⟩
  | _ => erroredEvent "unknown event type"

/-- The kind-watch match-transition switch (watch.go 637-663):
Created/Destroyed are dropped unless the resource matches; Updated is
rewritten by the (oldMatches, newMatches) table; the remaining tags are
`panic("should never be reached")` in the source (the caller has already
filtered Errored, and convertEvent emits no other tag), modelled as a
drop. -/
def kindTransition (matchesP : Meta → Bool) (ev : WEvent) : Option WEvent :=
  match ev.typ with
  | .created | .destroyed =>
    match ev.res with
    | some r => if matchesP r then some ev else none
    | none => none
  | .updated =>
    match ev.old, ev.res with
    | some o, some r =>
      if matchesP o ∧ ¬ matchesP r then some { ev with typ := .destroyed, old := none }
      else if ¬ matchesP o ∧ matchesP r then some { ev with typ := .created, old := none }
      else if matchesP r ∧ matchesP o then some ev
      else none
    | _, _ => none
  | _ => none

/-- One row of the kind-watch streaming query (watch.go 620-668):
convert, abort on `Errored`, otherwise apply the match transition
(`none` = row skipped). -/
def processKindRow (unmarshal : Bytes → Option Meta) (matchesP : Meta → Bool)
    (r : EventRow) : Except String (Option WEvent) :=
  let ev := convertEvent unmarshal r.id (r.specBefore.getD []) (r.specAfter.getD []) r.etype
  if ev.typ = .errored then .error (ev.errMsg.getD "")
  else .ok (kindTransition matchesP ev)

/-- The kind-watch drain of all rows returned by one wakeup query:
`eventID` advances to each row's id before conversion; the first
failing row aborts the query with its error. -/
def kindCollect (unmarshal : Bytes → Option Meta) (matchesP : Meta → Bool) :
    List EventRow → Nat → List WEvent → Except String (List WEvent × Nat)
  | [], last, acc => .ok (acc, last)
  | r :: rest, _, acc =>
    match processKindRow unmarshal matchesP r with
    | .error e => .error e
    | .ok none => kindCollect unmarshal matchesP rest r.id acc
    | .ok (some ev) => kindCollect unmarshal matchesP rest r.id (acc ++ [ev])

/-- The point-watch drain (watch.go 298-320): no match filtering; a
failing row stops the query, returning the events collected so far
together with the error. -/
def pointCollect (unmarshal : Bytes → Option Meta) :
    List EventRow → Nat → List WEvent → List WEvent × Nat × Option String
  | [], last, acc => (acc, last, none)
  | r :: rest, _, acc =>
    let ev := convertEvent unmarshal r.id (r.specBefore.getD []) (r.specAfter.getD []) r.etype
    if ev.typ = .errored then (acc, r.id, ev.errMsg)
    else pointCollect unmarshal rest r.id (acc ++ [ev])

/-- What one streaming-loop iteration emits, whether the loop runs on,
and the advanced `eventID`. -/
structure StepResult where
  emitted : List WEvent
  keepRunning : Bool
  newLast : Nat
  deriving DecidableEq, Repr

/-- One wakeup iteration of the point-watch streaming loop
(watch.go 265-339): query the rows after `last` for this identity,
convert them; on a query error the code sends the `Errored` event, then
still sends the previously collected events and RE-ENTERS the loop
(there is no `return` on the error path, unlike `watchKind`). -/
def pointWatchStep (unmarshal : Bytes → Option Meta) (events : List EventRow)
    (p : RPtr) (last : Nat) : StepResult :=
  let rows := events.filter (fun r =>
    last < r.id ∧ r.ns = p.ns ∧ r.typ = p.typ ∧ r.rid = p.rid)
  match pointCollect unmarshal rows last [] with
  | (evs, last2, some msg) => ⟨erroredEvent msg :: evs, true, last2⟩
  | (evs, last2, none) => ⟨evs, true, last2⟩

/-- One wakeup iteration of the kind-watch streaming loop
(watch.go 587-707): on a query error the `Errored` event is sent and
the goroutine returns (terminal); otherwise the filtered events are
delivered and the loop continues. -/
def kindWatchStep (unmarshal : Bytes → Option Meta) (matchesP : Meta → Bool)
    (events : List EventRow) (ns typ : String) (last : Nat) : StepResult :=
  let rows := events.filter (fun r => last < r.id ∧ r.ns = ns ∧ r.typ = typ)
  match kindCollect unmarshal matchesP rows last [] with
  | .error msg => ⟨[erroredEvent msg], false, last⟩
  | .ok (evs, last2) => ⟨evs, true, last2⟩

/-- `state.WatchOptions` fields used by the point watch. -/
structure WatchOptions where
  tailEvents : Int
  startFromBookmark : Option (List Nat)
  deriving DecidableEq, Repr

/-- `state.WatchKindOptions` fields used by `watchKind`. -/
structure WatchKindOptions where
  tailEvents : Int
  startFromBookmark : Option (List Nat)
  bootstrapContents : Bool
  bootstrapBookmark : Bool
  deriving DecidableEq, Repr

/-- `coalesce(max(event_id), 0)` over the events table rows. -/
def maxEvId (events : List EventRow) : Nat :=
  events.foldr (fun e m => max e.id m) 0

/-- The tombstone metadata (`resource.NewTombstone` with undefined
version) used for the initial `Destroyed` event of an absent resource. -/
def tombstone (p : RPtr) : Meta := ⟨p.ns, p.typ, p.rid, 0, 0, 0, [], [], 0, ""⟩

/-- Outcome of the synchronous point-watch setup. -/
inductive PointSetup where
  | fromBookmark (eventID : Int)
  | initial (initialEvent : WEvent) (eventID : Nat)
  deriving DecidableEq, Repr

/-- The synchronous setup dispatch of `Watch` (watch.go 130-250):
TailEvents ≠ 0 is unsupported; a bookmark is decoded and verified
against the event log (`TriggerNotify` follows); otherwise the current
resource row becomes the initial Created event (or a Destroyed
tombstone) with the current max event id as bookmark. -/
def watchSetup (unmarshal : Bytes → Option Meta) (db : DB) (p : RPtr)
    (options : WatchOptions) : Except WErr PointSetup :=
  if options.tailEvents ≠ 0 then .error (.unsupported "tailEvents")
  else
    match options.startFromBookmark with
    | some bm =>
      match decodeBookmark bm with
      | .error e => .error e
      | .ok eventID =>
        if db.events.any (fun r => (r.id : Int) = eventID) then .ok (.fromBookmark eventID)
        else .error (.invalidBookmark "bookmark refers to compacted event")
    | none =>
      match findRow db.resources p.ns p.typ p.rid with
      | some row =>
        match unmarshal row.spec with
        | none => .error (.internal "unmarshal initial resource state")
        | some res =>
          .ok (.initial
            ⟨.created, some res, none, some (encodeBookmark (maxEvId db.events)), none⟩
            (maxEvId db.events))
      | none =>
        .ok (.initial
          ⟨.destroyed, some (tombstone p), none,
            some (encodeBookmark (maxEvId db.events)), none⟩
          (maxEvId db.events))

/-- Outcome of the synchronous kind-watch setup. -/
inductive KindSetup where
  | fromBookmark (eventID : Int)
  | bootstrap (list : List Meta) (eventID : Nat)
  | plain (eventID : Nat)
  deriving DecidableEq, Repr

/-- The bootstrap scan (watch.go 440-463): unmarshal each returned spec
(first failure aborts the setup), keeping those the in-memory predicate
accepts. -/
def bootstrapScan (unmarshal : Bytes → Option Meta) (matchesP : Meta → Bool) :
    List Row → Option (List Meta)
  | [] => some []
  | r :: rest =>
    match unmarshal r.spec with
    | none => none
    | some res =>
      match bootstrapScan unmarshal matchesP rest with
      | none => none
      | some l => some (if matchesP res then res :: l else l)

/-- The synchronous setup dispatch of `watchKind` (watch.go 390-513):
TailEvents > 0 is unsupported; bookmark together with BootstrapContents
is unsupported; a bookmark is decoded and verified; BootstrapContents
scans the matching rows (`sqlFilter` stands for the compiled label
predicate pushed into the SQL query) and reads the max event id; the
default just reads the max event id. -/
def watchKindSetup (unmarshal : Bytes → Option Meta) (sqlFilter : Row → Bool)
    (matchesP : Meta → Bool) (db : DB) (ns typ : String)
    (options : WatchKindOptions) : Except WErr KindSetup :=
  if options.tailEvents > 0 then .error (.unsupported "tailEvents")
  else if options.startFromBookmark.isSome ∧ options.bootstrapContents then
    .error (.unsupported "startFromBookmark and bootstrapContents")
  else
    match options.startFromBookmark with
    | some bm =>
      match decodeBookmark bm with
      | .error e => .error e
      | .ok eventID =>
        if db.events.any (fun r => (r.id : Int) = eventID) then .ok (.fromBookmark eventID)
        else .error (.invalidBookmark "bookmark refers to compacted event")
    | none =>
      if options.bootstrapContents then
        match bootstrapScan unmarshal matchesP
            (db.resources.filter (fun r => r.ns = ns ∧ r.typ = typ ∧ sqlFilter r)) with
        | none => .error (.internal "unmarshal bootstrap resource")
        | some list => .ok (.bootstrap list (maxEvId db.events))
      else .ok (.plain (maxEvId db.events))

/-- C6: the per-row processing of a kind watch drops Created/Destroyed
events whose resource does not match, and rewrites Updated events by the
(oldMatches, newMatches) table: (false, true) ⇒ Created with old = nil,
(true, false) ⇒ Destroyed with old = nil, (true, true) ⇒ unchanged,
(false, false) ⇒ dropped. -/
theorem kind_match_transition (unmarshal : Bytes → Option Meta)
    (matchesP : Meta → Bool) (r : EventRow) (newR oldR : Meta) :
    (r.etype = 1 → unmarshal (r.specAfter.getD []) = some newR →
      processKindRow unmarshal matchesP r = .ok (if matchesP newR then
        some ⟨.created, some newR, none, some (encodeBookmark r.id), none⟩ else none)) ∧
    (r.etype = 3 → unmarshal (r.specBefore.getD []) = some newR →
      processKindRow unmarshal matchesP r = .ok (if matchesP newR then
        some ⟨.destroyed, some newR, none, some (encodeBookmark r.id), none⟩ else none)) ∧
    (r.etype = 2 → unmarshal (r.specAfter.getD []) = some newR →
      unmarshal (r.specBefore.getD []) = some oldR →
      processKindRow unmarshal matchesP r = .ok (
        match matchesP oldR, matchesP newR with
        | true, false => some ⟨.destroyed, some newR, none, some (encodeBookmark r.id), none⟩
        | false, true => some ⟨.created, some newR, none, some (encodeBookmark r.id), none⟩
        | true, true => some ⟨.updated, some newR, some oldR, some (encodeBookmark r.id), none⟩
        | false, false => none)) := by
  refine ⟨?_, ?_, ?_⟩
  · intro ht hu
    unfold processKindRow convertEvent
    rw [ht, hu]
    dsimp only
    rw [if_neg (by simp)]
    unfold kindTransition
    dsimp only
  · intro ht hu
    unfold processKindRow convertEvent
    rw [ht, hu]
    dsimp only
    rw [if_neg (by simp)]
    unfold kindTransition
    dsimp only
  · intro ht hu ho
    unfold processKindRow convertEvent
    rw [ht, hu, ho]
    dsimp only
    rw [if_neg (by simp)]
    unfold kindTransition
    dsimp only
    rcases hmo : matchesP oldR <;> rcases hmn : matchesP newR <;>
      simp [hmo, hmn]

/-- Closed witness for `kind_match_transition`: an Updated row whose old
resource stops matching is rewritten to Destroyed with old = nil. -/
theorem kind_match_transition_witness :
    processKindRow (fun b => if b = [1] then some (tombstone ⟨"n", "t", "i"⟩) else
        some ⟨"n", "t", "i", 2, 0, 0, [], [], 1, ""⟩)
      (fun m => m.phase = 0)
      ⟨4, "n", "t", "i", 0, 2, some [1], some [2]⟩ = .ok (
        match (fun (m : Meta) => decide (m.phase = 0)) (tombstone ⟨"n", "t", "i"⟩),
            (fun (m : Meta) => decide (m.phase = 0)) ⟨"n", "t", "i", 2, 0, 0, [], [], 1, ""⟩ with
        | true, false => some ⟨.destroyed, some ⟨"n", "t", "i", 2, 0, 0, [], [], 1, ""⟩,
            none, some (encodeBookmark 4), none⟩
        | false, true => some ⟨.created, some ⟨"n", "t", "i", 2, 0, 0, [], [], 1, ""⟩,
            none, some (encodeBookmark 4), none⟩
        | true, true => some ⟨.updated, some ⟨"n", "t", "i", 2, 0, 0, [], [], 1, ""⟩,
            some (tombstone ⟨"n", "t", "i"⟩), some (encodeBookmark 4), none⟩
        | false, false => none) :=
  (kind_match_transition
      (fun b => if b = [1] then some (tombstone ⟨"n", "t", "i"⟩) else
        some ⟨"n", "t", "i", 2, 0, 0, [], [], 1, ""⟩)
      (fun m => m.phase = 0)
      ⟨4, "n", "t", "i", 0, 2, some [1], some [2]⟩
      ⟨"n", "t", "i", 2, 0, 0, [], [], 1, ""⟩ (tombstone ⟨"n", "t", "i"⟩)).2.2
    (by decide) (by decide) (by decide)

/-- C10 (amended): the point `Watch` fails fast with *unsupported* for
any `TailEvents ≠ 0`; `WatchKind`/`WatchKindAggregated` fail fast with
*unsupported* only for `TailEvents > 0` (a negative value is accepted),
and fail fast with *unsupported* when both `StartFromBookmark` and
`BootstrapContents` are set.  All three checks run in the synchronous
setup, before the streaming thread is spawned. -/
theorem watch_unsupported_options (unmarshal : Bytes → Option Meta)
    (sqlFilter : Row → Bool) (matchesP : Meta → Bool) (db : DB) (p : RPtr)
    (ns typ : String) (popts : WatchOptions) (kopts : WatchKindOptions) :
    (popts.tailEvents ≠ 0 →
      watchSetup unmarshal db p popts = .error (.unsupported "tailEvents")) ∧
    (0 < kopts.tailEvents →
      watchKindSetup unmarshal sqlFilter matchesP db ns typ kopts =
        .error (.unsupported "tailEvents")) ∧
    (kopts.tailEvents ≤ 0 → kopts.startFromBookmark.isSome →
      kopts.bootstrapContents →
      watchKindSetup unmarshal sqlFilter matchesP db ns typ kopts =
        .error (.unsupported "startFromBookmark and bootstrapContents")) := by
  refine ⟨?_, ?_, ?_⟩
  · intro h
    unfold watchSetup
    rw [if_pos h]
  · intro h
    unfold watchKindSetup
    rw [if_pos h]
  · intro h1 h2 h3
    unfold watchKindSetup
    rw [if_neg (by omega), if_pos ⟨h2, h3⟩]

/-- C10 counterexample to the claim as stated: a kind watch with
`TailEvents = -1` (≠ 0) does not fail — its setup succeeds and reads the
max event id — because `watchKind` checks `TailEvents > 0` while the
point `Watch` checks `TailEvents != 0`. -/
theorem watchKind_tailEvents_counterexample :
    (-1 : Int) ≠ 0 ∧
    watchKindSetup (fun _ => none) (fun _ => true) (fun _ => true) ⟨[], [], 1⟩
      "ns" "t" ⟨-1, none, false, false⟩ = .ok (.plain 0) := by
  decide

/-- Closed witness for `watch_unsupported_options`: TailEvents = 3 on a
point watch is rejected. -/
theorem watch_unsupported_options_witness :
    watchSetup (fun _ => none) ⟨[], [], 1⟩ ⟨"n", "t", "i"⟩ ⟨3, none⟩ =
      .error (.unsupported "tailEvents") :=
  (watch_unsupported_options (fun _ => none) (fun _ => true) (fun _ => true)
      ⟨[], [], 1⟩ ⟨"n", "t", "i"⟩ "n" "t" ⟨3, none⟩ ⟨0, none, false, false⟩).1
    (by decide)

/-- C1 (code divergence): at a concrete failing input — a point watch
whose wakeup query returns one good row (id 1) and one row (id 2) whose
spec fails to unmarshal — the point-watch loop iteration emits the
`Errored` event, then still emits the previously collected events after
it, and KEEPS RUNNING (the error path of `Watch` lacks the `return`
that `watchKind` has); the kind-watch iteration on the same input emits
only the final `Errored` event and stops. -/
theorem point_watch_error_not_terminal :
    pointWatchStep
        (fun b => if b = [1] then some (tombstone ⟨"n", "t", "i"⟩) else none)
        [⟨1, "n", "t", "i", 0, 1, none, some [1]⟩,
          ⟨2, "n", "t", "i", 0, 1, none, some [9]⟩]
        ⟨"n", "t", "i"⟩ 0 =
      ⟨[erroredEvent "unmarshal created event",
          ⟨.created, some (tombstone ⟨"n", "t", "i"⟩), none,
            some (encodeBookmark 1), none⟩],
        true, 2⟩ ∧
    kindWatchStep
        (fun b => if b = [1] then some (tombstone ⟨"n", "t", "i"⟩) else none)
        (fun _ => true)
        [⟨1, "n", "t", "i", 0, 1, none, some [1]⟩,
          ⟨2, "n", "t", "i", 0, 1, none, some [9]⟩]
        "n" "t" 0 =
      ⟨[erroredEvent "unmarshal created event"], false, 0⟩ := by
  decide

end StateSqlite
